import Mathlib

/-!
# Verification of the teuthology coverage-aggregation core

Shallow embedding of `teuthology/coverage.py`:

* `read_coverage` — the Coverage Report Parser (lines 49-66 of the source),
* `store_coverage` — the Persistence Sink (lines 24-47), modelled as the
  trace of database operations it performs,
* `_analyze` — the Summary Scanner plus Aggregation Driver (lines 131-224),
  modelled over an abstract environment of file-system contents and
  external-tool outputs, producing the trace of external-tool invocations.

Python string operations (`splitlines`, `find`, slicing with negative
indices, `int()`, `float()`) are embedded over `List Char`.  Python `float`
values are represented exactly as rationals (`ℚ`); the textual percentages
parsed here are short decimal literals, for which the rational value is the
intended reading (the special forms `inf` and `nan`, which never occur in
lcov summaries, are not modelled).
-/

set_option autoImplicit false

namespace Teuthology

/-! ## Python string primitives -/

/-- Whitespace recognised by Python `str.strip()` / `int()` / `float()`. -/
def isPySpace (c : Char) : Bool :=
  c == ' ' || c == '\t' || c == '\n' || c == '\r' || c == '\x0b' || c == '\x0c'

/-- Python `str.strip()` on both ends. -/
def pyStrip (s : List Char) : List Char :=
  ((s.dropWhile isPySpace).reverse.dropWhile isPySpace).reverse

/-- Value of a run of decimal digit characters. -/
def digitsToNat (ds : List Char) : Nat :=
  ds.foldl (fun n c => 10 * n + (c.toNat - '0'.toNat)) 0

/-- Strip an optional leading sign, returning the sign and the rest. -/
def splitSign : List Char → Int × List Char
  | '+' :: r => (1, r)
  | '-' :: r => (-1, r)
  | r => (1, r)

/-- Python `int(s)` in base 10: optional surrounding whitespace, optional
sign, then a nonempty digit run; anything else raises `ValueError`,
modelled as `none`. -/
def pyInt (s : List Char) : Option Int :=
  let t := pyStrip s
  let (sg, u) := splitSign t
  if u.isEmpty then none
  else if u.all Char.isDigit then some (sg * (digitsToNat u : Int))
  else none

/-- Exponent part of a Python float literal (after the `e`/`E`):
an optional sign followed by a nonempty digit run, nothing more. -/
def parseExp (r : List Char) : Option Int :=
  let (sg, u) := splitSign r
  if u.isEmpty then none
  else if u.all Char.isDigit then some (sg * (digitsToNat u : Int))
  else none

/-- Mantissa-and-exponent body of a Python float literal with sign `sg`:
`digits [. digits] [exp]` or `. digits [exp]`.  The value
`sg * (ip.fp) * 10 ^ e` is assembled directly with `mkRat`, so the
rational is built without `Rat` arithmetic. -/
def pyFloatBody (sg : Int) (u : List Char) : Option ℚ :=
  let ip := u.takeWhile Char.isDigit
  let r1 := u.dropWhile Char.isDigit
  let (fp, r2) :=
    match r1 with
    | '.' :: r => (r.takeWhile Char.isDigit, r.dropWhile Char.isDigit)
    | _ => (([] : List Char), r1)
  if ip.isEmpty && fp.isEmpty then none
  else
    let m : Int := sg * (digitsToNat (ip ++ fp) : Int)
    let fl : Nat := fp.length
    match r2 with
    | [] => some (mkRat m (10 ^ fl))
    | c :: r =>
      if c == 'e' || c == 'E' then
        (parseExp r).map (fun e =>
          if (fl : Int) ≤ e then mkRat (m * ((10 : Nat) ^ (e - (fl : Int)).toNat : Nat)) 1
          else mkRat m (10 ^ ((fl : Int) - e).toNat))
      else none

/-- Python `float(s)` on decimal literals: optional surrounding whitespace,
optional sign, then a decimal mantissa with optional exponent; failure
(`ValueError`) is `none`.  The value is represented exactly as a rational
(the `inf` and `nan` forms, which never occur here, are not modelled). -/
def pyFloat (s : List Char) : Option ℚ :=
  let t := pyStrip s
  let (sg, u) := splitSign t
  pyFloatBody sg u

/-- Helper for `pyFind`: index of the first occurrence of `pat`, counting
from `i`, or `-1`. -/
def pyFindAux (pat : List Char) : List Char → Nat → Int
  | [], i => if pat.isEmpty then (i : Int) else -1
  | c :: rest, i =>
    if pat.isPrefixOf (c :: rest) then (i : Int) else pyFindAux pat rest (i + 1)

/-- Python `s.find(pat)`: index of the first occurrence of `pat` in `s`,
or `-1` when absent. -/
def pyFind (s pat : List Char) : Int := pyFindAux pat s 0

/-- Normalise a Python slice index against length `n`: negative indices
count from the end, and everything is clamped into `[0, n]`. -/
def clampIdx (n : Nat) (i : Int) : Nat :=
  if i < 0 then ((n : Int) + i).toNat else min i.toNat n

/-- Python slice `s[a:b]` (step 1), with Python's negative-index and
clamping semantics. -/
def pySlice (s : List Char) (a b : Int) : List Char :=
  (s.take (clampIdx s.length b)).drop (clampIdx s.length a)

/-- Helper for `pySplitlines`; `acc` holds the current line reversed, and
`afterCR` records whether the previous character was a `\r` (so that a
following `\n` completes a single `\r\n` terminator instead of starting
a new empty line). -/
def splitlinesAux : List Char → List Char → Bool → List (List Char)
  | [], acc, _ => if acc.isEmpty then [] else [acc.reverse]
  | c :: rest, acc, afterCR =>
    if c == '\n' then
      if afterCR then splitlinesAux rest [] false
      else acc.reverse :: splitlinesAux rest [] false
    else if c == '\r' then acc.reverse :: splitlinesAux rest [] true
    else splitlinesAux rest (c :: acc) false

/-- Python `str.splitlines()` for byte strings: split on `\n`, `\r` and
`\r\n`; a trailing line terminator does not produce a final empty line. -/
def pySplitlines (s : List Char) : List (List Char) := splitlinesAux s [] false

/-! ## The Coverage Report Parser (`read_coverage`) -/

/-- One metric slot value as assigned by the parser: either a
`(numerator, percentage)` pair with both fields present, or the no-data
pair `(None, None)` with both absent. -/
abbrev CovPair := Option Int × Option ℚ

/-- The parser's `coverage` list: three slots, each either still the
sentinel `None` (outer `none`, never assigned) or an assigned `CovPair`. -/
abbrev CovSlots := List (Option CovPair)

/-- The three metric line markers from the source, in order
lines, functions, branches. -/
def prefixesL : List (List Char) :=
  ["  lines......: ".data, "  functions..: ".data, "  branches...: ".data]

/-- The inner `for i, p in enumerate(prefixes)` loop with `break`:
index of the first marker the line starts with. -/
def matchIdxAux (line : List Char) : List (List Char) → Nat → Option Nat
  | [], _ => none
  | p :: ps, i => if p.isPrefixOf line then some i else matchIdxAux line ps (i + 1)

/-- Index (0, 1 or 2) of the metric marker that `line` starts with, if any. -/
def matchIdx (line : List Char) : Option Nat := matchIdxAux line prefixesL 0

/-- Body of the matched-line case of `read_coverage`: with a `%` present,
`int(line[line.find('(') + 1 : line.find(' of')])` and
`float(line[len(p) : line.find('%')])`, a conversion failure
(`ValueError`) being `none`; without a `%`, the no-data pair. -/
def parseCovLine (pfx line : List Char) : Option CovPair :=
  if line.contains '%' then
    match pyInt (pySlice line (pyFind line "(".data + 1) (pyFind line " of".data)) with
    | none => none
    | some n =>
      match pyFloat (pySlice line ((pfx.length : Int)) (pyFind line "%".data)) with
      | none => none
      | some q => some (some n, some q)
  else
    some (none, none)

/-- The `for line in reversed(output.splitlines())` loop of
`read_coverage`, including the early `break` once no slot is `None`.
Note the assignment `coverage[i] = ...` happens whether or not slot `i`
was already assigned. -/
def readCovLoop : List (List Char) → CovSlots → Option CovSlots
  | [], cov => some cov
  | line :: rest, cov =>
    match matchIdx line with
    | some i =>
      match parseCovLine (prefixesL.getD i []) line with
      | none => none
      | some pr =>
        let cov' := cov.set i (some pr)
        if cov'.all Option.isSome then some cov' else readCovLoop rest cov'
    | none =>
      if cov.all Option.isSome then some cov else readCovLoop rest cov

/-- `read_coverage(output)` (source lines 49-66): scan the lines of
`output` bottom-up, filling the three metric slots; `none` models an
escaping `ValueError`. -/
def read_coverage (output : String) : Option CovSlots :=
  readCovLoop ((pySplitlines output.data).reverse) [none, none, none]

/-! ## The Persistence Sink (`store_coverage`) -/

/-- A value in a database row: the `rev`/`test`/`suite` strings, a
numerator, a percentage, or SQL `NULL` (Python `None`). -/
inductive DbVal where
  | str (s : String)
  | int (n : Int)
  | rat (q : ℚ)
  | null
deriving DecidableEq

/-- Exceptions the embedded code can raise. -/
inductive RunError where
  | keyError (k : String)
  | assertionError
  | calledProcessError
  | valueError
  | typeError
  | dbError
deriving DecidableEq

def optIntVal : Option Int → DbVal
  | some n => .int n
  | none => .null

def optRatVal : Option ℚ → DbVal
  | some q => .rat q
  | none => .null

/-- `[item for sublist in coverage for item in sublist]`: each assigned
slot contributes its two fields; iterating over a still-unassigned bare
`None` slot raises `TypeError`, modelled as `none`. -/
def flattenCov : CovSlots → Option (List DbVal)
  | [] => some []
  | none :: _ => none
  | some (a, b) :: rest => (flattenCov rest).map (fun r => optIntVal a :: optRatVal b :: r)

/-- The row-building loop of `store_coverage`:
`[rev, test, suite] + flattened_cov` per dataset entry. -/
def buildRows (rev suite : String) : List (String × CovSlots) → Option (List (List DbVal))
  | [] => some []
  | (test, cov) :: rest =>
    match flattenCov cov with
    | none => none
    | some fc => (buildRows rev suite rest).map
        (fun rs => ([DbVal.str rev, DbVal.str test, DbVal.str suite] ++ fc) :: rs)

/-- Database operations performed by `connect_to_db` / `store_coverage`,
in order. -/
inductive DbOp where
  | connect
  | autocommitOff
  | execMany (rows : List (List DbVal))
  | rollback
  | commit
  | cursorClose
  | connClose
deriving DecidableEq

/-- `store_coverage(ctx, test_coverage, rev, suite)` (source lines 24-47),
as the trace of database operations plus the outcome.  `insertOk` says
whether the bulk `executemany` succeeds; when the row-building loop hits a
bare `None` slot, the `TypeError` escapes before the `try` block, and the
`with closing(db)` still closes the connection. -/
def store_coverage (test_coverage : List (String × CovSlots)) (rev suite : String)
    (insertOk : Bool) : List DbOp × Except RunError Unit :=
  match buildRows rev suite test_coverage with
  | none => ([.connect, .autocommitOff, .connClose], .error .typeError)
  | some rows =>
    if insertOk then
      ([.connect, .autocommitOff, .execMany rows, .commit, .cursorClose, .connClose], .ok ())
    else
      ([.connect, .autocommitOff, .execMany rows, .rollback, .cursorClose, .connClose],
        .error .dbError)

/-- Replay a database-operation trace with the transaction semantics of a
connection in non-autocommit mode: `execMany` stages rows, `commit` makes
them visible, `rollback` (or closing without commit) discards them.
State: (visible rows, staged rows). -/
def replayDb : List DbOp → List (List DbVal) → List (List DbVal) → List (List DbVal)
  | [], committed, _ => committed
  | .execMany rows :: rest, c, p => replayDb rest c (p ++ rows)
  | .commit :: rest, c, p => replayDb rest (c ++ p) []
  | .rollback :: rest, c, _ => replayDb rest c []
  | _ :: rest, c, p => replayDb rest c p

/-- The rows durably visible in the database after a trace of operations. -/
def committedRows (ops : List DbOp) : List (List DbVal) := replayDb ops [] []

/-! ## Summary Scanner and Aggregation Driver (`_analyze`) -/

/-- Python `dict` lookup, `d.get(k)` / `d[k]`. -/
def alistGet {α : Type} (d : List (String × α)) (k : String) : Option α :=
  (d.find? (fun kv => kv.1 == k)).map (fun kv => kv.2)

/-- Python `d[k] = v`: replace in place when the key exists, else append.
(The embedding models the mappings of the source as insertion-ordered
association lists; see the Python-2 caveat on iteration order in the
claims about dataset ordering.) -/
def alistSet {α : Type} (d : List (String × α)) (k : String) (v : α) : List (String × α) :=
  if (d.find? (fun kv => kv.1 == k)).isSome then
    d.map (fun kv => if kv.1 == k then (kv.1, v) else kv)
  else d ++ [(k, v)]

/-- Python `dict.update`: later fragments override earlier ones per key. -/
def pyUpdate (d new : List (String × String)) : List (String × String) :=
  new.foldl (fun acc kv => alistSet acc kv.1 kv.2) d

/-- `summary = {}; for new in yaml.safe_load_all(f): summary.update(new)`. -/
def mergeDocs (docs : List (List (String × String))) : List (String × String) :=
  docs.foldl pyUpdate []

/-- Python `s.startswith(p)`, over the character data. -/
def pyStartswith (s p : String) : Bool := p.data.isPrefixOf s.data

/-- Python `s.endswith(p)`, over the character data. -/
def pyEndswith (s p : String) : Bool := p.data.isSuffixOf s.data

/-- Lexicographic order on character data by code point — the order
Python's `sorted` uses on the byte strings `os.listdir` returns. -/
def lexLe : List Char → List Char → Bool
  | [], _ => true
  | _ :: _, [] => false
  | a :: as, b :: bs => if a.toNat = b.toNat then lexLe as bs else decide (a.toNat < b.toNat)

/-- `sorted`'s comparison on names, as a relation for `insertionSort`. -/
def StrLe (a b : String) : Prop := lexLe a.data b.data = true

instance : DecidableRel StrLe := fun a b => by unfold StrLe; infer_instance

/-- `os.path.join(a, b)` for the paths this code builds. -/
def pyJoin (a b : String) : String :=
  if pyStartswith b "/" then b
  else if a == "" || pyEndswith a "/" then a ++ b
  else a ++ "/" ++ b

/-- `os.path.basename`: the component after the last slash. -/
def pyBasename (p : String) : String :=
  ⟨(p.data.reverse.takeWhile (fun c => c ≠ '/')).reverse⟩

/-- The environment `_analyze` runs against: its arguments and ambient
configuration, the file-system contents under the test directory, and the
behaviour of the external tools.  `sha1Content` is the content of the
`ceph-sha1` marker files; `_analyze` never reads it. -/
structure Env where
  testDir : String
  lcovOutput : String
  htmlOutput : Option String
  covToolsDir : String
  skipInit : Bool
  buildOutputDir : String
  listdir : List String
  isDir : String → Bool
  existsSummary : String → Bool
  existsSha1 : String → Bool
  sha1Content : String → String
  summaryDocs : String → List (List (String × String))
  analyzeOutput : String → String
  mergeOutput : String → String
  covInitOk : Bool
  genhtmlOk : Bool
  insertOk : Bool

/-- External-tool invocations and file-system effects of `_analyze`,
in program order. -/
inductive Event where
  | covInit (script template outputDir tarball : String)
  | copyFile (src dst : String)
  | covAnalyze (script testPath outDir label : String)
  | lcovMerge (inA inB outp : String)
  | renameFile (src dst : String)
  | genhtml (outDir title trc : String)
deriving DecidableEq

/-- The candidate scan of `_analyze` (source lines 132-137): sorted
directory entries that are non-hidden subdirectories containing both
`summary.yaml` and `ceph-sha1`. -/
def scanTests (env : Env) : List String :=
  (env.listdir.insertionSort StrLe).filter fun f =>
    !pyStartswith f "." && env.isDir f && env.existsSummary f && env.existsSha1 f

/-- The summary-loading loop (source lines 139-151): merge each
candidate's summary documents, raise `KeyError` when `flavor` is missing,
skip non-`gcov` flavors, and record the eligible tests in scan order. -/
def loadSummaries (env : Env) (acc : List (String × List (String × String))) :
    List String → Option (List (String × List (String × String)))
  | [] => some acc
  | t :: ts =>
    let summary := mergeDocs (env.summaryDocs t)
    match alistGet summary "flavor" with
    | none => none
    | some fl =>
      if fl == "gcov" then loadSummaries env (alistSet acc t summary) ts
      else loadSummaries env acc ts

/-- The per-test loop of `_analyze` (source lines 174-210): analyze each
eligible test, parse its report into the dataset keyed by description,
merge its trace into the running total and atomically rename.  Returns
the events, and on success the dataset, the latest captured stdout (the
merge tool's, since `output` is reassigned by the merge step) and the
loop variable `summary`'s final value. -/
def perTestLoop (env : Env) :
    List (String × List (String × String)) → List (String × CovSlots) → String →
    List (String × String) →
    List Event × Except RunError (List (String × CovSlots) × String × List (String × String))
  | [], tc, out, summ => ([], .ok (tc, out, summ))
  | (t, summ) :: rest, tc, _, _ =>
    let e1 := Event.covAnalyze (pyJoin env.covToolsDir "cov-analyze.sh")
      (pyJoin env.testDir t) env.lcovOutput t
    let output := env.analyzeOutput t
    let desc := (alistGet summ "description").getD t
    match read_coverage output with
    | none => ([e1], .error .valueError)
    | some cov =>
      let tc' := alistSet tc desc cov
      let e2 := Event.lcovMerge (pyJoin env.lcovOutput (t ++ ".lcov"))
        (pyJoin env.lcovOutput "total.lcov") (pyJoin env.lcovOutput "total_tmp.lcov")
      let out' := env.mergeOutput t
      let e3 := Event.renameFile (pyJoin env.lcovOutput "total_tmp.lcov")
        (pyJoin env.lcovOutput "total.lcov")
      let r := perTestLoop env rest tc' out' summ
      (e1 :: e2 :: e3 :: r.1, r.2)

/-- What `_analyze` has computed when it reaches the end without raising. -/
structure AnalyzeResult where
  testCoverage : List (String × CovSlots)
  rev : String
  suite : String
  dbOps : List DbOp
deriving DecidableEq

/-- `_analyze(args)` (source lines 131-224): scan, assert eligibility,
optionally initialize, run the per-test loop, synthesize the suite total
from the last captured output, optionally generate HTML, and persist.
Returns the external-tool event trace together with the outcome. -/
def _analyze (env : Env) : List Event × Except RunError AnalyzeResult :=
  let tests := scanTests env
  match loadSummaries env [] tests with
  | none => ([], .error (.keyError "flavor"))
  | some testSummaries =>
    if testSummaries.isEmpty then ([], .error .assertionError)
    else
      let suite := pyBasename env.testDir
      let initEvents :=
        if env.skipInit then []
        else
          let e := Event.covInit (pyJoin env.covToolsDir "cov-init.sh")
            (pyJoin env.testDir (tests.headD "")) env.lcovOutput
            (pyJoin env.buildOutputDir (suite ++ ".tgz"))
          if env.covInitOk then
            [e, Event.copyFile (pyJoin env.lcovOutput "base.lcov")
              (pyJoin env.lcovOutput "total.lcov")]
          else [e]
      if !env.skipInit && !env.covInitOk then (initEvents, .error .calledProcessError)
      else
        let lp := perTestLoop env testSummaries [] "" []
        match lp.2 with
        | .error e => (initEvents ++ lp.1, .error e)
        | .ok (tc, lastOut, lastSumm) =>
          match read_coverage lastOut with
          | none => (initEvents ++ lp.1, .error .valueError)
          | some coverage =>
            let tc2 := alistSet tc ("total for " ++ suite) coverage
            let htmlEvents :=
              match env.htmlOutput with
              | none => []
              | some d => [Event.genhtml (pyJoin d "total") ("Total for " ++ suite)
                  (pyJoin env.lcovOutput "total.lcov")]
            if env.htmlOutput.isSome && !env.genhtmlOk then
              (initEvents ++ lp.1 ++ htmlEvents, .error .calledProcessError)
            else
              match alistGet lastSumm "ceph-sha1" with
              | none => (initEvents ++ lp.1 ++ htmlEvents,
                  .error (.keyError "ceph-sha1"))
              | some rev =>
                let sc := store_coverage tc2 rev suite env.insertOk
                match sc.2 with
                | .ok _ =>
                  (initEvents ++ lp.1 ++ htmlEvents, .ok ⟨tc2, rev, suite, sc.1⟩)
                | .error e => (initEvents ++ lp.1 ++ htmlEvents, .error e)

/-! ## Concrete environments and helper definitions used by the theorems -/

/-- A slot is well formed when, if assigned, its two fields are
simultaneously present or simultaneously absent. -/
def slotWf (p : Option CovPair) : Prop :=
  ∀ a b, p = some (a, b) → (a.isSome ↔ b.isSome)

/-- Recognise initializer-tool invocations in an event trace. -/
def isCovInitEv : Event → Bool
  | .covInit _ _ _ _ => true
  | _ => false

/-- The revision `_analyze` hands to the Persistence Sink, when it
completes without raising. -/
def analyzedRev (env : Env) : Option String :=
  match (_analyze env).2 with
  | .ok r => some r.rev
  | .error _ => none

/-- A well-formed analyzer report with all three metrics at 50%. -/
def covText : String :=
  "  lines......: 50.0% (1 of 2)\n  functions..: 50.0% (1 of 2)\n  branches...: 50.0% (1 of 2)"

/-- The parse of `covText`. -/
def covHalf : CovSlots :=
  [some (some 1, some (mkRat 50 1)), some (some 1, some (mkRat 50 1)),
    some (some 1, some (mkRat 50 1))]

/-- A concrete environment with a single eligible test `t0` whose
summary.yaml carries `ceph-sha1: A` while the `ceph-sha1` marker file
contains `B`; initialization is skipped and everything succeeds. -/
def env0 : Env :=
  { testDir := "td"
    lcovOutput := "lo"
    htmlOutput := none
    covToolsDir := "ct"
    skipInit := true
    buildOutputDir := "bo"
    listdir := ["t0"]
    isDir := fun _ => true
    existsSummary := fun _ => true
    existsSha1 := fun _ => true
    sha1Content := fun _ => "B"
    summaryDocs := fun _ => [[("flavor", "gcov"), ("ceph-sha1", "A"), ("description", "d0")]]
    analyzeOutput := fun _ => covText
    mergeOutput := fun _ => covText
    covInitOk := true
    genhtmlOk := true
    insertOk := true }

/-- The result `_analyze` computes on `env0`. -/
def res0 : AnalyzeResult :=
  { testCoverage := [("d0", covHalf), ("total for td", covHalf)]
    rev := "A"
    suite := "td"
    dbOps := [DbOp.connect, DbOp.autocommitOff,
      DbOp.execMany
        [[DbVal.str "A", DbVal.str "d0", DbVal.str "td", DbVal.int 1, DbVal.rat (mkRat 50 1),
          DbVal.int 1, DbVal.rat (mkRat 50 1), DbVal.int 1, DbVal.rat (mkRat 50 1)],
         [DbVal.str "A", DbVal.str "total for td", DbVal.str "td", DbVal.int 1,
          DbVal.rat (mkRat 50 1), DbVal.int 1, DbVal.rat (mkRat 50 1), DbVal.int 1,
          DbVal.rat (mkRat 50 1)]],
      DbOp.commit, DbOp.cursorClose, DbOp.connClose] }

/-- A concrete environment with two candidates: `a` (candidate but not
coverage-enabled, flavor `other`) and `b` (eligible, flavor `gcov`);
initialization is not skipped. -/
def env1 : Env :=
  { env0 with
    skipInit := false
    listdir := ["a", "b"]
    summaryDocs := fun t =>
      if t == "a" then [[("flavor", "other")]]
      else [[("flavor", "gcov"), ("ceph-sha1", "A"), ("description", "db1")]] }

/-! ## Parser lemmas -/

theorem isPrefixOf_ex : ∀ (p l : List Char), p.isPrefixOf l = true ↔ ∃ t, p ++ t = l
  | [], l => by simp [List.isPrefixOf]
  | a :: p, [] => by simp [List.isPrefixOf]
  | a :: p, b :: l => by
    simp only [List.isPrefixOf, Bool.and_eq_true, beq_iff_eq, isPrefixOf_ex p l,
      List.cons_append, List.cons.injEq]
    constructor
    · rintro ⟨rfl, t, rfl⟩; exact ⟨t, rfl, rfl⟩
    · rintro ⟨t, rfl, rfl⟩; exact ⟨rfl, t, rfl⟩

theorem getD_set_self {α : Type} (l : List α) (i : Nat) (a d : α) (h : i < l.length) :
    (l.set i a).getD i d = a := by
  rw [List.getD_eq_getElem?_getD, List.getElem?_set_self h]; rfl

theorem getD_set_ne {α : Type} (l : List α) (i j : Nat) (a d : α) (h : i ≠ j) :
    (l.set i a).getD j d = l.getD j d := by
  rw [List.getD_eq_getElem?_getD, List.getElem?_set_ne h, ← List.getD_eq_getElem?_getD]

theorem parseCovLine_wf {pfx line : List Char} {a : Option Int} {b : Option ℚ}
    (h : parseCovLine pfx line = some (a, b)) : a.isSome ↔ b.isSome := by
  unfold parseCovLine at h
  split at h
  · split at h
    · exact absurd h (by simp)
    · split at h
      · exact absurd h (by simp)
      · rw [Option.some.injEq, Prod.mk.injEq] at h
        rcases h with ⟨rfl, rfl⟩
        simp
  · rw [Option.some.injEq, Prod.mk.injEq] at h
    rcases h with ⟨rfl, rfl⟩
    simp

theorem readCovLoop_length : ∀ (rl : List (List Char)) (cov cov' : CovSlots),
    readCovLoop rl cov = some cov' → cov'.length = cov.length
  | [], cov, cov', h => by
    simp only [readCovLoop, Option.some.injEq] at h; rw [← h]
  | line :: rest, cov, cov', h => by
    simp only [readCovLoop] at h
    split at h
    · split at h
      · exact absurd h (by simp)
      · split at h
        · simp only [Option.some.injEq] at h
          rw [← h, List.length_set]
        · rw [readCovLoop_length rest _ _ h, List.length_set]
    · split at h
      · simp only [Option.some.injEq] at h; rw [← h]
      · exact readCovLoop_length rest _ _ h

theorem readCovLoop_wf : ∀ (rl : List (List Char)) (cov cov' : CovSlots),
    (∀ p ∈ cov, slotWf p) → readCovLoop rl cov = some cov' → ∀ p ∈ cov', slotWf p
  | [], cov, cov', hwf, h => by
    simp only [readCovLoop, Option.some.injEq] at h; rw [← h]; exact hwf
  | line :: rest, cov, cov', hwf, h => by
    cases hmi : matchIdx line with
    | none =>
      simp only [readCovLoop, hmi] at h
      split at h
      · simp only [Option.some.injEq] at h; rw [← h]; exact hwf
      · exact readCovLoop_wf rest _ _ hwf h
    | some i =>
      simp only [readCovLoop, hmi] at h
      cases hpr : parseCovLine (prefixesL.getD i []) line with
      | none =>
        rw [hpr] at h
        exact absurd h (by simp)
      | some pr =>
        rw [hpr] at h
        have hset : ∀ p ∈ cov.set i (some pr), slotWf p := by
          intro p hp
          rcases List.mem_or_eq_of_mem_set hp with hp' | rfl
          · exact hwf p hp'
          · intro a b hab
            cases hab
            exact parseCovLine_wf hpr
        dsimp only [] at h
        split at h <;>
          first
          | (simp only [Option.some.injEq] at h; rw [← h]; exact hset)
          | exact readCovLoop_wf rest _ _ hset h

theorem flattenCov_of_mem_none : ∀ (cs : CovSlots), none ∈ cs → flattenCov cs = none
  | [], h => absurd h (by simp)
  | none :: rest, _ => rfl
  | some (a, b) :: rest, h => by
    have hr : none ∈ rest := by simpa using h
    simp [flattenCov, flattenCov_of_mem_none rest hr]

theorem matchIdx_lt {line : List Char} {i : Nat} (h : matchIdx line = some i) : i < 3 := by
  simp only [matchIdx, prefixesL, matchIdxAux] at h
  split at h
  · cases h; omega
  · split at h
    · cases h; omega
    · split at h
      · cases h; omega
      · cases h

theorem isPrefixOf_unique {p q l : List Char} (hlen : p.length = q.length)
    (hp : p.isPrefixOf l = true) (hq : q.isPrefixOf l = true) : p = q := by
  obtain ⟨t, ht⟩ := (isPrefixOf_ex p l).1 hp
  obtain ⟨u, hu⟩ := (isPrefixOf_ex q l).1 hq
  exact (List.append_inj (ht.trans hu.symm) hlen).1

theorem matchIdxAux_cons_pos {line p : List Char} {ps : List (List Char)} {i : Nat}
    (h : p.isPrefixOf line = true) : matchIdxAux line (p :: ps) i = some i := by
  simp [matchIdxAux, h]

theorem matchIdxAux_cons_neg {line p : List Char} {ps : List (List Char)} {i : Nat}
    (h : p.isPrefixOf line = false) :
    matchIdxAux line (p :: ps) i = matchIdxAux line ps (i + 1) := by
  simp [matchIdxAux, h]

theorem pfx_false_of_other {p q line : List Char} (hlen : p.length = q.length)
    (hne : p ≠ q) (h : q.isPrefixOf line = true) : p.isPrefixOf line = false := by
  cases h0 : p.isPrefixOf line
  · rfl
  · exact absurd (isPrefixOf_unique hlen h0 h) hne

theorem matchIdx_of_pfx {line : List Char} {i : Nat} (hi : i < 3)
    (h : (prefixesL.getD i []).isPrefixOf line = true) : matchIdx line = some i := by
  interval_cases i
  · have h' : ("  lines......: ".data).isPrefixOf line = true := h
    unfold matchIdx prefixesL
    rw [matchIdxAux_cons_pos h']
  · have h' : ("  functions..: ".data).isPrefixOf line = true := h
    unfold matchIdx prefixesL
    rw [matchIdxAux_cons_neg (pfx_false_of_other (by decide) (by decide) h'),
      matchIdxAux_cons_pos h']
  · have h' : ("  branches...: ".data).isPrefixOf line = true := h
    unfold matchIdx prefixesL
    rw [matchIdxAux_cons_neg (pfx_false_of_other (by decide) (by decide) h'),
      matchIdxAux_cons_neg (pfx_false_of_other (by decide) (by decide) h'),
      matchIdxAux_cons_pos h']

theorem splitlinesAux_no_break : ∀ (l acc : List Char) (b : Bool),
    (∀ c ∈ l, c ≠ '\n' ∧ c ≠ '\r') →
    splitlinesAux l acc b = if acc.isEmpty && l.isEmpty then [] else [acc.reverse ++ l]
  | [], acc, b, _ => by
    cases acc <;> simp [splitlinesAux]
  | c :: rest, acc, b, h => by
    have hc := h c (by simp)
    have hrest : ∀ x ∈ rest, x ≠ '\n' ∧ x ≠ '\r' := fun x hx => h x (by simp [hx])
    have hr : (c == '\r') = false := by simpa using hc.2
    have hn : (c == '\n') = false := by simpa using hc.1
    rw [splitlinesAux, hr, hn]
    simp only [Bool.false_eq_true, if_false]
    rw [splitlinesAux_no_break rest (c :: acc) false hrest]
    simp

theorem pySplitlines_single {l : List Char} (hnb : ∀ c ∈ l, c ≠ '\n' ∧ c ≠ '\r')
    (hne : l ≠ []) : pySplitlines l = [l] := by
  unfold pySplitlines
  rw [splitlinesAux_no_break l [] false hnb]
  cases l
  · exact absurd rfl hne
  · simp

theorem find?_reverse_of_countP_le_one {α : Type} (p : α → Bool) :
    ∀ (l : List α), l.countP p ≤ 1 → l.reverse.find? p = l.find? p
  | [], _ => rfl
  | a :: l, h => by
    rw [List.countP_cons] at h
    by_cases hp : p a = true
    · rw [if_pos hp] at h
      have h0 : l.countP p = 0 := by omega
      have hrev : l.reverse.find? p = none := by
        rw [List.find?_eq_none]
        intro x hx
        exact (List.countP_eq_zero.1 h0) x (by simpa using hx)
      rw [List.reverse_cons, List.find?_append, hrev, List.find?_cons_of_pos _ hp,
        List.find?_cons_of_pos _ hp]
      rfl
    · have h1 : l.countP p ≤ 1 := by omega
      rw [List.reverse_cons, List.find?_append,
        find?_reverse_of_countP_le_one p l h1, List.find?_cons_of_neg _ hp]
      cases hfind : l.find? p <;> simp [hfind, List.find?, hp]

theorem readCovLoop_unique : ∀ (rl : List (List Char)) (cov cov' : CovSlots),
    readCovLoop rl cov = some cov' →
    cov.length = 3 →
    (∀ j, j < 3 → rl.countP (fun l => matchIdx l == some j) ≤ 1) →
    (∀ j, j < 3 → (cov.getD j none).isSome = true →
      rl.find? (fun l => matchIdx l == some j) = none) →
    ∀ i, i < 3 → cov'.getD i none =
      match rl.find? (fun l => matchIdx l == some i) with
      | some l => parseCovLine (prefixesL.getD i []) l
      | none => cov.getD i none
  | [], cov, cov', h, _, _, _, i, _ => by
    simp only [readCovLoop, Option.some.injEq] at h
    rw [← h]
    rfl
  | line :: rest, cov, cov', h, hlen, hcnt, hpre, i, hi => by
    cases hmi : matchIdx line with
    | none =>
      simp only [readCovLoop, hmi] at h
      have hfc : ∀ j : Nat, (line :: rest).find? (fun l => matchIdx l == some j) =
          rest.find? (fun l => matchIdx l == some j) := by
        intro j
        exact List.find?_cons_of_neg _ (by simp [hmi])
      split at h
      · next hall =>
        simp only [Option.some.injEq] at h
        have hlt : i < cov.length := by omega
        have hgd : cov.getD i none = cov[i] := by
          rw [List.getD_eq_getElem?_getD, List.getElem?_eq_getElem hlt]
          rfl
        have hsome : (cov.getD i none).isSome = true := by
          rw [hgd]
          exact List.all_eq_true.1 hall _ (List.getElem_mem hlt)
        rw [← h, hpre i hi hsome]
      · have ih := readCovLoop_unique rest cov cov' h hlen
          (fun j hj => by
            have := hcnt j hj
            rw [List.countP_cons] at this
            omega)
          (fun j hj hs => by
            have := hpre j hj hs
            rw [hfc j] at this
            exact this)
          i hi
        rw [hfc i]
        exact ih
    | some j =>
      have hj3 : j < 3 := matchIdx_lt hmi
      simp only [readCovLoop, hmi] at h
      cases hpr : parseCovLine (prefixesL.getD j []) line with
      | none =>
        rw [hpr] at h
        exact absurd h (by simp)
      | some pr =>
        rw [hpr] at h
        dsimp only [] at h
        have hpl_j : (fun l => matchIdx l == some j) line = true := by simp [hmi]
        have hpl_ne : ∀ k : Nat, k ≠ j → (fun l => matchIdx l == some k) line = false := by
          intro k hk
          simp only [hmi, beq_eq_false_iff_ne, ne_eq, Option.some.injEq]
          exact fun hh => hk hh.symm
        have hcnt_line : rest.countP (fun l => matchIdx l == some j) = 0 := by
          have := hcnt j hj3
          rw [List.countP_cons, if_pos hpl_j] at this
          omega
        have hfr_j : rest.find? (fun l => matchIdx l == some j) = none := by
          rw [List.find?_eq_none]
          intro x hx
          simpa using List.countP_eq_zero.1 hcnt_line x hx
        have hlen2 : (cov.set j (some pr)).length = 3 := by
          rw [List.length_set]; exact hlen
        have hpre2 : ∀ k, k < 3 → ((cov.set j (some pr)).getD k none).isSome = true →
            rest.find? (fun l => matchIdx l == some k) = none := by
          intro k hk hs
          by_cases hkj : k = j
          · subst hkj; exact hfr_j
          · rw [getD_set_ne _ _ _ _ _ (fun hh => hkj hh.symm)] at hs
            have := hpre k hk hs
            rw [List.find?_cons_of_neg _ (by simp [hpl_ne k hkj])] at this
            exact this
        have hcnt2 : ∀ k, k < 3 → rest.countP (fun l => matchIdx l == some k) ≤ 1 := by
          intro k hk
          have := hcnt k hk
          rw [List.countP_cons] at this
          split at this <;> omega
        split at h
        · next hall =>
          simp only [Option.some.injEq] at h
          by_cases hij : i = j
          · subst hij
            have hfp : List.find? (fun l => matchIdx l == some i) (line :: rest) = some line :=
              @List.find?_cons_of_pos _ (fun l => matchIdx l == some i) line rest hpl_j
            rw [← h, hfp, getD_set_self _ _ _ _ (by omega : i < cov.length)]
            exact hpr.symm
          · have hlt2 : i < (cov.set j (some pr)).length := by omega
            have hgd : (cov.set j (some pr)).getD i none = (cov.set j (some pr))[i] := by
              rw [List.getD_eq_getElem?_getD, List.getElem?_eq_getElem hlt2]
              rfl
            have hs : ((cov.set j (some pr)).getD i none).isSome = true := by
              rw [hgd]
              exact List.all_eq_true.1 hall _ (List.getElem_mem hlt2)
            have hfi := hpre2 i hi hs
            have hfn : List.find? (fun l => matchIdx l == some i) (line :: rest) =
                List.find? (fun l => matchIdx l == some i) rest :=
              @List.find?_cons_of_neg _ (fun l => matchIdx l == some i) line rest
                (by simp [hpl_ne i hij])
            rw [← h, hfn, hfi, getD_set_ne _ _ _ _ _ (fun hh => hij hh.symm)]
        · have ih := readCovLoop_unique rest (cov.set j (some pr)) cov' h hlen2 hcnt2 hpre2 i hi
          by_cases hij : i = j
          · subst hij
            rw [hfr_j] at ih
            have hfp : List.find? (fun l => matchIdx l == some i) (line :: rest) = some line :=
              @List.find?_cons_of_pos _ (fun l => matchIdx l == some i) line rest hpl_j
            rw [hfp, ih, getD_set_self _ _ _ _ (by omega : i < cov.length)]
            exact hpr.symm
          · have hfn : List.find? (fun l => matchIdx l == some i) (line :: rest) =
                List.find? (fun l => matchIdx l == some i) rest :=
              @List.find?_cons_of_neg _ (fun l => matchIdx l == some i) line rest
                (by simp [hpl_ne i hij])
            rw [hfn, ih]
            cases hfi : rest.find? (fun l => matchIdx l == some i)
            · exact getD_set_ne _ _ _ _ _ (fun hh => hij hh.symm)
            · rfl

/-! ## Claims about the Coverage Report Parser -/

/-- C8: for a synthetic report text containing the three metric lines
`  lines......: 85.3% (120 of 140)`, `  functions..: 90.0% (9 of 10)` and
`  branches...: 50.0% (4 of 8)`, `read_coverage` returns exactly
`[(120, 85.3), (9, 90.0), (4, 50.0)]` (each slot an assigned pair with
both fields present). -/
theorem claim8_roundtrip :
    read_coverage
      "  lines......: 85.3% (120 of 140)\n  functions..: 90.0% (9 of 10)\n  branches...: 50.0% (4 of 8)" =
    some [some (some 120, some (853 / 10 : ℚ)), some (some 9, some (90 : ℚ)),
      some (some 4, some (50 : ℚ))] := by
  have h1 : (853 / 10 : ℚ) = mkRat 853 10 := by
    rw [Rat.mkRat_eq_div]
    norm_num
  rw [h1]
  decide

/-- C10: the parser is not total on prefixed lines containing a
percentage marker: on a line that starts with a metric marker and
contains `%` but has no well-formed `(<int> of ...` group, the `int`
conversion raises `ValueError` (result `none`) instead of recording an
absent pair. -/
theorem claim10_malformed_raises :
    read_coverage "  branches...: 50.0% bad" = none := by decide

/-- C9: every input line that starts with a metric marker but contains no
`%` yields the no-data pair `(None, None)` in that metric's slot, without
raising: on such a (single-line) input, `read_coverage` returns the
initial slots with exactly that slot assigned `(none, none)`. -/
theorem claim9_no_data (line : List Char) (i : Nat) (hi : i < 3)
    (hpfx : (prefixesL.getD i []).isPrefixOf line = true)
    (hpct : line.contains '%' = false)
    (hnb : ∀ c ∈ line, c ≠ '\n' ∧ c ≠ '\r') :
    read_coverage ⟨line⟩ = some (([none, none, none] : CovSlots).set i (some (none, none))) := by
  have hne : line ≠ [] := by
    intro h0
    subst h0
    interval_cases i <;> exact absurd hpfx (by decide)
  have hparse : parseCovLine (prefixesL.getD i []) line = some (none, none) := by
    unfold parseCovLine
    rw [hpct]
    simp
  have hmi := matchIdx_of_pfx hi hpfx
  unfold read_coverage
  rw [show (String.mk line).data = line from rfl, pySplitlines_single hnb hne]
  simp only [List.reverse_singleton, readCovLoop, hmi]
  rw [hparse]
  dsimp only []
  split
  · rfl
  · rfl

/-- C9 witness: the spec's example line `  branches...: no data found`
parses to `(None, None)` in the branches slot without raising. -/
theorem claim9_no_data_witness :
    read_coverage "  branches...: no data found" =
      some (([none, none, none] : CovSlots).set 2 (some (none, none))) :=
  claim9_no_data ("  branches...: no data found".data) 2 (by decide) (by decide)
    (by decide) (by decide)

/-- C2 (counterexample): on the empty input the parser leaves all three
slots as the bare sentinel `None`, which is not an absent `(None, None)`
pair: the Persistence Sink's row flattening raises (`none`) on the bare
sentinel, while a triple of absent pairs flattens to six SQL NULLs.  This
refutes the claim that metrics left unassigned at input exhaustion are
"equivalently to an absent pair, usable downstream by the Persistence
Sink's row flattening". -/
theorem claim2_counterexample :
    read_coverage "" = some [none, none, none] ∧
    flattenCov [none, none, none] = none ∧
    flattenCov [some (none, none), some (none, none), some (none, none)] =
      some [DbVal.null, DbVal.null, DbVal.null, DbVal.null, DbVal.null, DbVal.null] :=
  ⟨by decide, by decide, by decide⟩

/-- C2 (amended): every successfully parsed result has exactly 3 entries
in the fixed order lines, functions, branches; every assigned entry is a
pair whose two fields are simultaneously present or simultaneously
absent; and slots left unassigned at input exhaustion keep the bare
sentinel `None`, on which the Persistence Sink's row flattening raises
rather than treating it as an absent pair. -/
theorem claim2_wellformed (out : String) (cov : CovSlots)
    (h : read_coverage out = some cov) :
    cov.length = 3 ∧ (∀ p ∈ cov, slotWf p) ∧
      (none ∈ cov → flattenCov cov = none) := by
  unfold read_coverage at h
  refine ⟨?_, ?_, flattenCov_of_mem_none cov⟩
  · have := readCovLoop_length _ _ _ h
    simpa using this
  · have h0 : ∀ p ∈ ([none, none, none] : CovSlots), slotWf p := by
      intro p hp
      have hpn : p = none := by simpa using hp
      subst hpn
      intro a b hab
      exact absurd hab (by simp)
    exact readCovLoop_wf _ _ _ h0 h

/-- C2 witness: on the single no-data branches line the parsed result has
3 entries, all assigned entries are well-formed pairs, and flattening
fails on the two still-unassigned sentinels. -/
theorem claim2_wellformed_witness :
    ([none, none, some (none, none)] : CovSlots).length = 3 ∧
    (∀ p ∈ ([none, none, some (none, none)] : CovSlots), slotWf p) ∧
    (none ∈ ([none, none, some (none, none)] : CovSlots) →
      flattenCov [none, none, some (none, none)] = none) :=
  claim2_wellformed "  branches...: no data found" [none, none, some (none, none)]
    (by decide)

/-- C1 (counterexample): on an input whose two lines both carry the
`lines` marker, with the bottom-most line reading `20.0% (2 of 10)`, the
parsed result is the top line's `(1, 10.0)`, not the bottom-most line's
`(2, 20.0)`: the reverse scan reassigns slot 0 when it meets the higher
duplicate, because no check stops it, so "first match from the end wins"
fails. -/
theorem claim1_counterexample :
    read_coverage "  lines......: 10.0% (1 of 10)\n  lines......: 20.0% (2 of 10)" =
      some [some (some 1, some (10 : ℚ)), none, none] ∧
    read_coverage "  lines......: 10.0% (1 of 10)\n  lines......: 20.0% (2 of 10)" ≠
      some [some (some 2, some (20 : ℚ)), none, none] :=
  ⟨by decide, by decide⟩

/-- C1 (amended): when every metric marker matches at most one line of
the input, each metric's slot is determined by its unique matching line
(parsed by `parseCovLine`), or left unassigned when no line matches.
With duplicate prefixed lines this can fail: a match scanned later (a
higher line) overwrites an earlier one unless scanning has already
stopped, as the counterexample shows. -/
theorem claim1_unique_match (output : String) (cov : CovSlots)
    (h : read_coverage output = some cov)
    (huniq : ∀ j, j < 3 →
      (pySplitlines output.data).countP (fun l => matchIdx l == some j) ≤ 1) :
    ∀ i, i < 3 → cov.getD i none =
      ((pySplitlines output.data).find? (fun l => matchIdx l == some i)).bind
        (fun l => parseCovLine (prefixesL.getD i []) l) := by
  intro i hi
  unfold read_coverage at h
  have hcnt : ∀ j, j < 3 →
      (pySplitlines output.data).reverse.countP (fun l => matchIdx l == some j) ≤ 1 := by
    intro j hj
    rw [List.countP_reverse]
    exact huniq j hj
  have hpre : ∀ j, j < 3 → ((([none, none, none] : CovSlots).getD j none).isSome = true) →
      (pySplitlines output.data).reverse.find? (fun l => matchIdx l == some j) = none := by
    intro j hj hs
    exfalso
    interval_cases j <;> exact absurd hs (by decide)
  have hx := readCovLoop_unique _ _ _ h rfl hcnt hpre i hi
  rw [find?_reverse_of_countP_le_one _ _ (huniq i hi)] at hx
  rw [hx]
  cases hfi : (pySplitlines output.data).find? (fun l => matchIdx l == some i)
  · interval_cases i <;> rfl
  · rfl

/-- C1 witness: on a report with one line per marker the theorem applies,
and the lines slot equals the parse of its unique matching line. -/
theorem claim1_unique_match_witness :
    covHalf.getD 0 none =
      ((pySplitlines covText.data).find? (fun l => matchIdx l == some 0)).bind
        (fun l => parseCovLine (prefixesL.getD 0 []) l) :=
  claim1_unique_match covText covHalf (by decide) (by decide) 0 (by decide)

/-! ## Claims about the Persistence Sink -/

/-- C3: if the bulk insert raises, the whole transaction is rolled back
(zero rows durably visible) and the exception is re-raised; on success
the transaction is committed and exactly the built rows are visible; and
on every exit path — including the `TypeError` raised while building rows
— the last database operation is closing the connection. -/
theorem claim3_sink_atomicity (ds : List (String × CovSlots)) (rev suite : String)
    (insertOk : Bool) :
    (store_coverage ds rev suite insertOk).1.getLast? = some DbOp.connClose ∧
    (insertOk = false →
      (∃ e, (store_coverage ds rev suite insertOk).2 = .error e) ∧
      committedRows (store_coverage ds rev suite insertOk).1 = []) ∧
    (∀ rows, buildRows rev suite ds = some rows → insertOk = true →
      (store_coverage ds rev suite insertOk).2 = .ok () ∧
      committedRows (store_coverage ds rev suite insertOk).1 = rows ∧
      DbOp.commit ∈ (store_coverage ds rev suite insertOk).1) ∧
    (∀ rows, buildRows rev suite ds = some rows → insertOk = false →
      DbOp.rollback ∈ (store_coverage ds rev suite insertOk).1) := by
  unfold store_coverage
  cases hb : buildRows rev suite ds <;> cases insertOk <;>
    simp [committedRows, replayDb]

/-! ## Order lemmas for the Summary Scanner -/

theorem lexLe_total : ∀ (a b : List Char), lexLe a b = true ∨ lexLe b a = true
  | [], _ => .inl rfl
  | _ :: _, [] => .inr rfl
  | a :: as, b :: bs => by
    simp only [lexLe]
    by_cases h : a.toNat = b.toNat
    · rw [if_pos h, if_pos h.symm]
      exact lexLe_total as bs
    · rw [if_neg h, if_neg (fun hh => h hh.symm)]
      rcases Nat.lt_or_ge a.toNat b.toNat with hlt | hge
      · exact .inl (decide_eq_true hlt)
      · exact .inr (decide_eq_true (by omega))

theorem lexLe_trans : ∀ (a b c : List Char),
    lexLe a b = true → lexLe b c = true → lexLe a c = true
  | [], _, _, _, _ => rfl
  | _ :: _, [], _, h1, _ => by simp [lexLe] at h1
  | _ :: _, _ :: _, [], _, h2 => by simp [lexLe] at h2
  | a :: as, b :: bs, c :: cs, h1, h2 => by
    simp only [lexLe] at h1 h2 ⊢
    by_cases hab : a.toNat = b.toNat <;> by_cases hbc : b.toNat = c.toNat
    · rw [if_pos hab] at h1
      rw [if_pos hbc] at h2
      rw [if_pos (hab.trans hbc)]
      exact lexLe_trans as bs cs h1 h2
    · rw [if_neg hbc] at h2
      have hv := of_decide_eq_true h2
      rw [if_neg (by omega : ¬ a.toNat = c.toNat)]
      exact decide_eq_true (by omega)
    · rw [if_neg hab] at h1
      have hv := of_decide_eq_true h1
      rw [if_neg (by omega : ¬ a.toNat = c.toNat)]
      exact decide_eq_true (by omega)
    · rw [if_neg hab] at h1
      rw [if_neg hbc] at h2
      have hv1 := of_decide_eq_true h1
      have hv2 := of_decide_eq_true h2
      rw [if_neg (by omega : ¬ a.toNat = c.toNat)]
      exact decide_eq_true (by omega)

instance : IsTotal String StrLe :=
  ⟨fun a b => lexLe_total a.data b.data⟩

instance : IsTrans String StrLe :=
  ⟨fun a b c h1 h2 => lexLe_trans a.data b.data c.data h1 h2⟩

theorem scanTests_sorted (env : Env) : (scanTests env).Sorted StrLe := by
  unfold scanTests
  exact (List.sorted_insertionSort StrLe env.listdir).filter _

theorem scanTests_mem (env : Env) (f : String) :
    f ∈ scanTests env ↔ f ∈ env.listdir ∧ pyStartswith f "." = false ∧
      env.isDir f = true ∧ env.existsSummary f = true ∧ env.existsSha1 f = true := by
  unfold scanTests
  rw [List.mem_filter, (List.perm_insertionSort StrLe env.listdir).mem_iff]
  simp only [Bool.and_eq_true, Bool.not_eq_true']
  tauto

theorem scanTests_nodup (env : Env) (h : env.listdir.Nodup) : (scanTests env).Nodup := by
  unfold scanTests
  exact ((List.perm_insertionSort StrLe env.listdir).nodup_iff.2 h).filter _

theorem alistGet_eq_none {α : Type} (d : List (String × α)) (k : String) :
    alistGet d k = none ↔ k ∉ d.map Prod.fst := by
  unfold alistGet
  rw [Option.map_eq_none', List.find?_eq_none]
  simp
  constructor
  · intro hh x hx
    exact hh k x hx rfl
  · intro hh a b hab ha
    subst ha
    exact hh b hab

theorem alistSet_fresh {α : Type} {d : List (String × α)} {k : String}
    (h : k ∉ d.map Prod.fst) (v : α) : alistSet d k v = d ++ [(k, v)] := by
  unfold alistSet
  rw [if_neg]
  intro hs
  obtain ⟨kv, hkv⟩ := Option.isSome_iff_exists.1 hs
  have hmem := List.mem_of_find?_eq_some hkv
  have hpred : (fun kv => kv.1 == k) kv = true :=
    @List.find?_some _ (fun kv => kv.1 == k) kv d hkv
  exact h (by
    rw [← (beq_iff_eq.1 hpred)]
    exact List.mem_map_of_mem Prod.fst hmem)

theorem loadSummaries_ok (env : Env) : ∀ (ts : List String)
    (acc : List (String × List (String × String))),
    (∀ t ∈ ts, alistGet (mergeDocs (env.summaryDocs t)) "flavor" ≠ none) →
    (∀ t ∈ ts, t ∉ acc.map Prod.fst) →
    ts.Nodup →
    ∃ tl, loadSummaries env acc ts = some tl ∧
      tl.map Prod.fst = acc.map Prod.fst ++ ts.filter
        (fun t => alistGet (mergeDocs (env.summaryDocs t)) "flavor" == some "gcov")
  | [], acc, _, _, _ => ⟨acc, rfl, by simp⟩
  | t :: ts, acc, hfl, hacc, hnd => by
    cases hget : alistGet (mergeDocs (env.summaryDocs t)) "flavor" with
    | none => exact absurd hget (hfl t (by simp))
    | some fl =>
      have hpred : (alistGet (mergeDocs (env.summaryDocs t)) "flavor" == some "gcov") =
          (fl == "gcov") := by rw [hget]; rfl
      simp only [loadSummaries, hget]
      rcases List.nodup_cons.1 hnd with ⟨hmem, hnd'⟩
      by_cases hgc : (fl == "gcov") = true
      · rw [if_pos hgc]
        have hfresh : t ∉ acc.map Prod.fst := hacc t (by simp)
        rw [alistSet_fresh hfresh]
        obtain ⟨tl, hload, hmap⟩ := loadSummaries_ok env ts (acc ++ [(t, mergeDocs (env.summaryDocs t))])
          (fun u hu => hfl u (by simp [hu]))
          (fun u hu => by
            simp only [List.map_append, List.mem_append]
            rintro (h1 | h2)
            · exact hacc u (by simp [hu]) h1
            · simp at h2
              subst h2
              exact hmem hu)
          hnd'
        refine ⟨tl, hload, ?_⟩
        rw [hmap, List.filter_cons, hpred, if_pos hgc]
        simp
      · rw [if_neg hgc]
        obtain ⟨tl, hload, hmap⟩ := loadSummaries_ok env ts acc
          (fun u hu => hfl u (by simp [hu]))
          (fun u hu => hacc u (by simp [hu]))
          hnd'
        refine ⟨tl, hload, ?_⟩
        rw [hmap, List.filter_cons, hpred, if_neg hgc]

/-! ## Claims about the Summary Scanner -/

/-- C4: the scanner's candidate sequence is sorted by name with hidden
entries excluded, and contains exactly the subdirectories having both
`summary.yaml` and `ceph-sha1`; provided every candidate's merged summary
has a `flavor` key, loading succeeds (non-`gcov` flavors are skipped
without error) and the eligible tests are exactly the candidates whose
flavor is `gcov`, in scan order; and when no candidate is eligible,
`_analyze` aborts with `AssertionError` before any external tool is
invoked (its event trace is empty). -/
theorem claim4_scanner (env : Env) (hnd : env.listdir.Nodup)
    (hfl : ∀ t ∈ scanTests env, alistGet (mergeDocs (env.summaryDocs t)) "flavor" ≠ none) :
    (scanTests env).Sorted StrLe ∧
    (∀ f, f ∈ scanTests env ↔ f ∈ env.listdir ∧ pyStartswith f "." = false ∧
      env.isDir f = true ∧ env.existsSummary f = true ∧ env.existsSha1 f = true) ∧
    ∃ tl, loadSummaries env [] (scanTests env) = some tl ∧
      tl.map Prod.fst = (scanTests env).filter
        (fun t => alistGet (mergeDocs (env.summaryDocs t)) "flavor" == some "gcov") ∧
      (tl = [] → _analyze env = ([], .error .assertionError)) := by
  obtain ⟨tl, hload, hmap⟩ := loadSummaries_ok env (scanTests env) [] hfl (by simp)
    (scanTests_nodup env hnd)
  refine ⟨scanTests_sorted env, scanTests_mem env, tl, hload, by simpa using hmap, ?_⟩
  intro h0
  subst h0
  unfold _analyze
  simp only [hload, List.isEmpty_nil, if_true]

/-- C4 witness: on a concrete environment with one candidate the scanner
facts hold; this instantiates the sortedness conjunct. -/
theorem claim4_scanner_witness : (scanTests env0).Sorted StrLe :=
  (claim4_scanner env0 (by decide) (by decide)).1

/-! ## Aggregation Driver lemmas -/

theorem perTestLoop_no_init (env : Env) : ∀ (items : List (String × List (String × String)))
    (tc : List (String × CovSlots)) (out : String) (sm : List (String × String)),
    (perTestLoop env items tc out sm).1.filter isCovInitEv = []
  | [], _, _, _ => rfl
  | (t, summ) :: rest, tc, out, sm => by
    simp only [perTestLoop]
    cases read_coverage (env.analyzeOutput t) with
    | none => rfl
    | some cov =>
      simp [isCovInitEv, perTestLoop_no_init env rest]

theorem perTestLoop_last (env : Env) : ∀ (items : List (String × List (String × String)))
    (tc : List (String × CovSlots)) (out : String) (sm : List (String × String))
    (tc' : List (String × CovSlots)) (out' : String) (sm' : List (String × String)),
    (perTestLoop env items tc out sm).2 = .ok (tc', out', sm') →
    (items = [] ∧ sm' = sm) ∨ ∃ t0, items.getLast? = some (t0, sm')
  | [], tc, out, sm, tc', out', sm', h => by
    simp only [perTestLoop, Except.ok.injEq, Prod.mk.injEq] at h
    exact .inl ⟨rfl, h.2.2.symm⟩
  | (t, summ) :: rest, tc, out, sm, tc', out', sm', h => by
    simp only [perTestLoop] at h
    cases hrc : read_coverage (env.analyzeOutput t) with
    | none =>
      rw [hrc] at h
      exact absurd h (by simp)
    | some cov =>
      rw [hrc] at h
      dsimp only [] at h
      rcases perTestLoop_last env rest _ _ _ _ _ _ h with ⟨hrest, hsm⟩ | ⟨t0, hlast⟩
      · subst hrest
        subst hsm
        exact .inr ⟨t, rfl⟩
      · refine .inr ⟨t0, ?_⟩
        cases rest with
        | nil => simp at hlast
        | cons r rs =>
          rw [List.getLast?_cons_cons]
          exact hlast

theorem buildRows_head (rev suite : String) : ∀ (ds : List (String × CovSlots))
    (rows : List (List DbVal)), buildRows rev suite ds = some rows →
    ∀ row ∈ rows, row.head? = some (DbVal.str rev)
  | [], rows, h => by
    simp only [buildRows, Option.some.injEq] at h
    intro row hrow
    rw [← h] at hrow
    exact absurd hrow (by simp)
  | (test, cov) :: rest, rows, h => by
    simp only [buildRows] at h
    cases hf : flattenCov cov with
    | none =>
      rw [hf] at h
      exact absurd h (by simp)
    | some fc =>
      rw [hf] at h
      cases hb : buildRows rev suite rest with
      | none =>
        rw [hb] at h
        exact absurd h (by simp)
      | some rs =>
        rw [hb] at h
        simp only [Option.map_some', Option.some.injEq] at h
        intro row hrow
        rw [← h] at hrow
        rcases List.mem_cons.1 hrow with hr | hmem
        · subst hr
          rfl
        · exact buildRows_head rev suite rest rs hb row hmem

theorem store_coverage_ok (ds : List (String × CovSlots)) (rev suite : String)
    (insertOk : Bool) (u : Unit) (h : (store_coverage ds rev suite insertOk).2 = .ok u) :
    ∃ rows, buildRows rev suite ds = some rows ∧
      committedRows (store_coverage ds rev suite insertOk).1 = rows := by
  unfold store_coverage at h ⊢
  cases hb : buildRows rev suite ds with
  | none =>
    rw [hb] at h
    exact absurd h (by simp)
  | some rows =>
    rw [hb] at h
    dsimp only [] at h ⊢
    cases insertOk with
    | false => simp at h
    | true => exact ⟨rows, rfl, by simp [committedRows, replayDb]⟩

theorem loadSummaries_sha1_irrel (env : Env) (f : String → String) :
    ∀ (ts : List String) (acc : List (String × List (String × String))),
    loadSummaries { env with sha1Content := f } acc ts = loadSummaries env acc ts
  | [], _ => rfl
  | t :: ts, acc => by
    simp only [loadSummaries]
    cases alistGet (mergeDocs (env.summaryDocs t)) "flavor" with
    | none => rfl
    | some fl =>
      dsimp only []
      by_cases hgc : (fl == "gcov") = true
      · rw [if_pos hgc, if_pos hgc]
        exact loadSummaries_sha1_irrel env f ts _
      · rw [if_neg hgc, if_neg hgc]
        exact loadSummaries_sha1_irrel env f ts acc

theorem perTestLoop_sha1_irrel (env : Env) (f : String → String) :
    ∀ (items : List (String × List (String × String)))
    (tc : List (String × CovSlots)) (out : String) (sm : List (String × String)),
    perTestLoop { env with sha1Content := f } items tc out sm = perTestLoop env items tc out sm
  | [], _, _, _ => rfl
  | (t, summ) :: rest, tc, out, sm => by
    simp only [perTestLoop]
    cases read_coverage (env.analyzeOutput t) with
    | none => rfl
    | some cov =>
      dsimp only []
      rw [perTestLoop_sha1_irrel env f rest
        (alistSet tc ((alistGet summ "description").getD t) cov) (env.mergeOutput t) summ]

theorem analyze_sha1_irrel (env : Env) (f : String → String) :
    _analyze { env with sha1Content := f } = _analyze env := by
  unfold _analyze
  rw [show scanTests { env with sha1Content := f } = scanTests env from rfl]
  dsimp only []
  rw [loadSummaries_sha1_irrel env f (scanTests env) []]
  cases loadSummaries env [] (scanTests env) with
  | none => rfl
  | some ts =>
    dsimp only []
    by_cases hemp : ts.isEmpty = true
    · rw [if_pos hemp, if_pos hemp]
    · rw [if_neg hemp, if_neg hemp]
      rw [perTestLoop_sha1_irrel env f ts [] "" []]

/-! ## Claims about the Aggregation Driver -/

/-- C5 (counterexample): in an environment whose first candidate `a` has
flavor `other` (not coverage-enabled) while `b` is the only eligible
test, the single initializer invocation uses `td/a` — the first
candidate's directory — as the template, not the first eligible test's
directory `td/b`. -/
theorem claim5_counterexample :
    (_analyze env1).1.filter isCovInitEv =
      [Event.covInit "ct/cov-init.sh" "td/a" "lo" "bo/td.tgz"] ∧
    (∃ tl, loadSummaries env1 [] (scanTests env1) = some tl ∧ tl.map Prod.fst = ["b"]) ∧
    ("td/a" : String) ≠ "td/b" :=
  ⟨by decide,
    ⟨[("b", [("flavor", "gcov"), ("ceph-sha1", "A"), ("description", "db1")])],
      by decide, by decide⟩,
    by decide⟩

/-- C5 (amended): when initialization is not skipped and at least one
test is eligible, the driver invokes the initializer tool exactly once,
with the first candidate's directory (first in sorted order among
subdirectories holding both marker files, regardless of flavor) as the
template argument, and on success seeds the cumulative trace by copying
`base.lcov` to `total.lcov`. -/
theorem claim5_init_once (env : Env) (tl : List (String × List (String × String)))
    (hskip : env.skipInit = false)
    (hload : loadSummaries env [] (scanTests env) = some tl)
    (hne : tl ≠ [])
    (hinit : env.covInitOk = true) :
    (_analyze env).1.filter isCovInitEv =
      [Event.covInit (pyJoin env.covToolsDir "cov-init.sh")
        (pyJoin env.testDir ((scanTests env).headD ""))
        env.lcovOutput
        (pyJoin env.buildOutputDir (pyBasename env.testDir ++ ".tgz"))] ∧
    Event.copyFile (pyJoin env.lcovOutput "base.lcov") (pyJoin env.lcovOutput "total.lcov")
      ∈ (_analyze env).1 := by
  have hemp : tl.isEmpty = false := by
    cases tl
    · exact absurd rfl hne
    · rfl
  unfold _analyze
  simp only [hload, hemp, hskip, hinit, Bool.false_eq_true, if_false, if_true,
    Bool.not_false, Bool.not_true, Bool.true_and, Bool.and_false]
  refine ⟨?_, ?_⟩ <;>
  · repeat' split
    all_goals
      simp [List.filter_append, List.mem_append, isCovInitEv, perTestLoop_no_init]

/-- C5 witness: the amended statement instantiated on the concrete
two-candidate environment. -/
theorem claim5_init_once_witness :
    (_analyze env1).1.filter isCovInitEv =
      [Event.covInit (pyJoin env1.covToolsDir "cov-init.sh")
        (pyJoin env1.testDir ((scanTests env1).headD ""))
        env1.lcovOutput
        (pyJoin env1.buildOutputDir (pyBasename env1.testDir ++ ".tgz"))] ∧
    Event.copyFile (pyJoin env1.lcovOutput "base.lcov") (pyJoin env1.lcovOutput "total.lcov")
      ∈ (_analyze env1).1 :=
  claim5_init_once env1 [("b", [("flavor", "gcov"), ("ceph-sha1", "A"), ("description", "db1")])]
    (by decide) (by decide) (by decide) (by decide)

/-- C7 (counterexample): on an environment whose only test carries
`ceph-sha1: A` inside summary.yaml while the `ceph-sha1` marker file
contains `B`, the revision handed to the Persistence Sink is `A` — the
summary-document value — not the marker file's content `B`, refuting the
claim that the recorded revision is read from the marker file. -/
theorem claim7_counterexample :
    analyzedRev env0 = some "A" ∧ env0.sha1Content "t0" = "B" ∧ ("A" : String) ≠ "B" :=
  ⟨by decide, rfl, by decide⟩

/-- C7 (amended): the revision recorded with every persisted row is the
value of the `ceph-sha1` key of the run-summary document of the test
processed last by the per-test loop, used uniformly for all rows; the
marker file's content is never read (the run is invariant under changing
it). -/
theorem claim7_revision_source (env : Env) (r : AnalyzeResult)
    (h : (_analyze env).2 = .ok r) :
    (∃ tl t s, loadSummaries env [] (scanTests env) = some tl ∧
      tl.getLast? = some (t, s) ∧ alistGet s "ceph-sha1" = some r.rev) ∧
    (∀ row ∈ committedRows r.dbOps, row.head? = some (DbVal.str r.rev)) ∧
    (∀ f, _analyze { env with sha1Content := f } = _analyze env) := by
  have hinv : ∀ f, _analyze { env with sha1Content := f } = _analyze env :=
    fun f => analyze_sha1_irrel env f
  unfold _analyze at h
  (try dsimp only [] at h)
  cases hl : loadSummaries env [] (scanTests env) with
  | none =>
    rw [hl] at h
    exact absurd h (by simp)
  | some ts =>
    rw [hl] at h
    (try dsimp only [] at h)
    by_cases hemp : ts.isEmpty = true
    · rw [if_pos hemp] at h
      exact absurd h (by simp)
    · rw [if_neg hemp] at h
      by_cases hguard : (!env.skipInit && !env.covInitOk) = true
      · rw [if_pos hguard] at h
        exact absurd h (by simp)
      · rw [if_neg hguard] at h
        cases hlp : (perTestLoop env ts [] "" []).2 with
        | error e =>
          rw [hlp] at h
          exact absurd h (by simp)
        | ok trip =>
          obtain ⟨tc, lastOut, lastSumm⟩ := trip
          rw [hlp] at h
          (try dsimp only [] at h)
          cases hrc : read_coverage lastOut with
          | none =>
            rw [hrc] at h
            exact absurd h (by simp)
          | some coverage =>
            rw [hrc] at h
            (try dsimp only [] at h)
            by_cases hhtml : (env.htmlOutput.isSome && !env.genhtmlOk) = true
            · rw [if_pos hhtml] at h
              exact absurd h (by simp)
            · rw [if_neg hhtml] at h
              cases hget : alistGet lastSumm "ceph-sha1" with
              | none =>
                rw [hget] at h
                exact absurd h (by simp)
              | some rev =>
                rw [hget] at h
                (try dsimp only [] at h)
                cases hsc : (store_coverage
                    (alistSet tc ("total for " ++ pyBasename env.testDir) coverage)
                    rev (pyBasename env.testDir) env.insertOk).2 with
                | error e =>
                  rw [hsc] at h
                  exact absurd h (by simp)
                | ok u =>
                  rw [hsc] at h
                  (try dsimp only [] at h)
                  rw [Except.ok.injEq] at h
                  subst h
                  have hempne : ts ≠ [] := by
                    intro h0
                    subst h0
                    exact hemp rfl
                  rcases perTestLoop_last env ts [] "" [] tc lastOut lastSumm hlp with
                    ⟨hnil, _⟩ | ⟨t0, hlast⟩
                  · exact absurd hnil hempne
                  · refine ⟨⟨ts, t0, lastSumm, rfl, hlast, hget⟩, ?_, hinv⟩
                    obtain ⟨rows, hbr, hcr⟩ := store_coverage_ok _ _ _ _ u hsc
                    intro row hrow
                    rw [hcr] at hrow
                    exact buildRows_head _ _ _ _ hbr row hrow

/-- C7 witness: the amended statement instantiated on the concrete
environment where summary.yaml and the marker file disagree. -/
theorem claim7_revision_source_witness :
    (∃ tl t s, loadSummaries env0 [] (scanTests env0) = some tl ∧
      tl.getLast? = some (t, s) ∧ alistGet s "ceph-sha1" = some res0.rev) ∧
    (∀ row ∈ committedRows res0.dbOps, row.head? = some (DbVal.str res0.rev)) ∧
    (∀ f, _analyze { env0 with sha1Content := f } = _analyze env0) :=
  claim7_revision_source env0 res0 (by rfl)

end Teuthology
